import Mathlib

/-!
Verification development for svd2bitmask (src/svd2bitmask.py), a converter
from SVD-style hardware description documents to C header files.

The Python source is shallowly embedded: Python ints are modelled as `Int`
(`Nat` where all values are provably nonnegative bit patterns), fallible
Python code returns `Except PyErr`, where `PyErr` names the exception class
a statement would raise, and the XML element tree is modelled by the `Xml`
inductive.  Every definition follows the structure of the corresponding
Python function; line numbers in comments refer to src/svd2bitmask.py.
-/

set_option maxHeartbeats 1000000

namespace Svd

deriving instance DecidableEq for Except

/-- Python exception classes that the translated code can raise. -/
inductive PyErr where
  | typeError
  | nameError
  | attributeError
  | valueError
  deriving DecidableEq

/-- Bit field of a register: class `Field`, lines 103-130.
Offsets and widths are Python ints, hence `Int` (the bitRange parser can
produce negative widths). -/
structure Field where
  name : String
  description : String
  offset : Int
  width : Int
  readonly : Bool
  deriving DecidableEq

/-- Register of a peripheral: class `Register`, lines 58-101.
Constructor default values (lines 59): name and description default to the
empty string, type to UNKNOWN, fields to an empty list, reserved to False
and reset to 0. -/
structure Register where
  size : Int
  offset : Int
  name : String
  description : String
  type : String
  fields : List Field
  reserved : Bool
  reset : Int
  deriving DecidableEq

/-- Peripheral: class `Peripheral`, lines 8-56.  `name` is computed from
`realname` by `__init__` (see `canonicalName`); `path` starts empty. -/
structure Peripheral where
  name : String
  realname : String
  description : String
  registers : List Register
  path : String
  deriving DecidableEq

/-! ### Canonical name derivation (Peripheral.__init__, lines 8-20)

`re.match(r'(\w+)\d+$', realname)` anchors at the start of the string and at
the end (the `$`), so a match is a split of the whole string into a nonempty
group of word characters followed by a nonempty run of digits.  `\w+` is
greedy: among all valid splits the one with the longest group 1 wins, which
(because digits are themselves word characters) is the split leaving exactly
one digit for `\d+`. `greedyGroup` reproduces this backtracking search,
trying the longest group first. -/

/-- Python `\w` on the ASCII identifiers appearing in SVD files. -/
def isWordChar (c : Char) : Bool := c.isAlphanum || c == '_'

/-- Is position `k` a valid split for the pattern `(\w+)\d+$`? -/
def splitOkAt (s : List Char) (k : Nat) : Bool :=
  (s.take k).all isWordChar && !(s.drop k).isEmpty && (s.drop k).all Char.isDigit

/-- Greedy search for the group-1 length of `re.match(r'(\w+)\d+$', s)`,
trying candidate lengths from `k` downward. -/
def greedyGroup (s : List Char) : Nat → Option Nat
  | 0 => none
  | k + 1 => if splitOkAt s (k + 1) then some (k + 1) else greedyGroup s k

/-- Lines 10-15: `self.name = m[1]` when the regex matches, else
`self.name = realname`. -/
def canonicalName (realname : String) : String :=
  match greedyGroup realname.data (realname.data.length - 1) with
  | some k => String.mk (realname.data.take k)
  | none => realname

/-- Peripheral.__init__ (lines 8-20): derives `name`, stores `realname`,
`description` and `registers`, and initializes `path` to the empty string. -/
def mkPeripheral (realname description : String) (registers : List Register) :
    Peripheral :=
  ⟨canonicalName realname, realname, description, registers, ""⟩

/-! ### Sorting

Python `list.sort()` sorts via `__lt__`, which compares `offset` for both
`Register` (line 69) and `Field` (line 111).  We model it with insertion
sort over the reflexive closure of that comparison. -/

/-- Field ordering used by `fields.sort()` (Field.__lt__, line 111). -/
def fieldLe (a b : Field) : Prop := a.offset ≤ b.offset

instance : DecidableRel fieldLe := fun a b => Int.decLe a.offset b.offset

instance : IsTotal Field fieldLe := ⟨fun a b => Int.le_total a.offset b.offset⟩

instance : IsTrans Field fieldLe := ⟨fun _ _ _ h1 h2 => le_trans h1 h2⟩

/-- `fields.sort()`. -/
def sortF (l : List Field) : List Field := List.insertionSort fieldLe l

/-- Register ordering used by `registers.sort()` (Register.__lt__, line 69). -/
def registerLe (a b : Register) : Prop := a.offset ≤ b.offset

instance : DecidableRel registerLe := fun a b => Int.decLe a.offset b.offset

instance : IsTotal Register registerLe := ⟨fun a b => Int.le_total a.offset b.offset⟩

instance : IsTrans Register registerLe := ⟨fun _ _ _ h1 h2 => le_trans h1 h2⟩

/-- `registers.sort()`. -/
def sortR (l : List Register) : List Register := List.insertionSort registerLe l

/-! ### Field-level layout normalization (load_registers, lines 444-485) -/

/-- `Field('', 'Reserved', offset, width, True)` (lines 453, 468, 482). -/
def mkReservedField (offset width : Int) : Field := ⟨"", "Reserved", offset, width, true⟩

/-- The gap scan of lines 459-471: for each adjacent pair of the scanned
list, if `start_next - end > 0` a reserved field of that width is appended
at `end`.  `range(len(fields) - 1)` is evaluated before the loop body runs,
so appended fields are never themselves scanned; we model this by collecting
the appended fields separately. -/
def fieldGapFills : List Field → List Field
  | a :: b :: rest =>
    (if b.offset - (a.offset + a.width) > 0 then
      [mkReservedField (a.offset + a.width) (b.offset - (a.offset + a.width))]
    else []) ++ fieldGapFills (b :: rest)
  | _ => []

/-- Lines 449-456: after sorting, if the first field does not start at bit 0,
`fields.insert(0, Field('', 'Reserved', 0, start_next - 1, True))` inserts a
reserved field of width `start_next - 1` (not `start_next`) at offset 0. -/
def withHeadF (sorted : List Field) : List Field :=
  match sorted with
  | [] => sorted
  | f0 :: _ =>
    if f0.offset ≠ 0 then mkReservedField 0 (f0.offset - 1) :: sorted else sorted

/-- The list state after the gap scan: original elements in order followed by
the appended reserved fields. -/
def scanF (l : List Field) : List Field := l ++ fieldGapFills l

/-- `fields[-1]` of a Python list. -/
def lastF : List Field → Option Field
  | [] => none
  | [a] => some a
  | _ :: b :: rest => lastF (b :: rest)

/-- The field list after sort, reserved-head insertion, gap scan and re-sort
(the state of the Python `fields` list right after line 474). -/
def resortedF (fields : List Field) : List Field :=
  sortF (scanF (withHeadF (sortF fields)))

/-- Lines 444-485: the complete field-level normalization applied inside
`load_registers` when at least one field parsed: sort, insert a reserved
head if the first offset is nonzero, fill gaps between adjacent fields,
re-sort (`resortedF`), and finally (lines 477-485) if the last field does
not end at bit 32, append one reserved field covering up to bit 32. -/
def normalizeFields (fields : List Field) : List Field :=
  if fields.length > 0 then
    match lastF (resortedF fields) with
    | some last =>
      if last.offset + last.width ≠ 32 then
        resortedF fields ++ [mkReservedField (last.offset + last.width)
          (32 - (last.offset + last.width))]
      else resortedF fields
    | none => resortedF fields
  else fields

/-! ### Register-level layout normalization (load_peripheral, lines 330-356) -/

/-- `Register(size, offset, reserved=True)` with all other attributes left at
their defaults (lines 336 and 350 construct reserved registers positionally:
the first positional argument is `size`, the second is `offset`). -/
def mkReservedRegister (size offset : Int) : Register :=
  ⟨size, offset, "", "", "UNKNOWN", [], true, 0⟩

/-- The gap scan of lines 341-353: appends `Register(diff, end, reserved=True)`
for each adjacent pair with `diff = start_next - end > 0`; as with fields,
appended registers are not themselves scanned. -/
def registerGapFills : List Register → List Register
  | a :: b :: rest =>
    (if b.offset - (a.offset + a.size) > 0 then
      [mkReservedRegister (b.offset - (a.offset + a.size)) (a.offset + a.size)]
    else []) ++ registerGapFills (b :: rest)
  | _ => []

/-- Lines 332-339: if the first register's offset is nonzero the code runs
`registers.insert(0, Register(0, start_next - 1, reserved=True))`.  Note the
positional arguments: this is a register of SIZE 0 at OFFSET `start_next - 1`
(the accompanying comment says a reserved section from 0 to the next register
was intended). -/
def withHeadR (sorted : List Register) : List Register :=
  match sorted with
  | [] => sorted
  | r0 :: _ =>
    if r0.offset ≠ 0 then mkReservedRegister 0 (r0.offset - 1) :: sorted else sorted

/-- Lines 330-356: sort registers, insert the offset-0 guard, fill gaps and
re-sort. -/
def normalizeRegisters (registers : List Register) : List Register :=
  let withHead := withHeadR (sortR registers)
  sortR (withHead ++ registerGapFills withHead)

/-! ### XML document model and text access (lines 132-166) -/

/-- An element-tree node: tag, attributes, text and child elements. -/
inductive Xml where
  | mk (tag : String) (attrib : List (String × String)) (text : Option String)
      (children : List Xml)

def Xml.tag : Xml → String
  | .mk t _ _ _ => t

def Xml.attrib : Xml → List (String × String)
  | .mk _ a _ _ => a

def Xml.text : Xml → Option String
  | .mk _ _ t _ => t

def Xml.children : Xml → List Xml
  | .mk _ _ _ c => c

/-- `xml.find(name)`: first child element with the given tag. -/
def Xml.find (x : Xml) (tagName : String) : Option Xml :=
  x.children.find? (fun c => c.tag == tagName)

/-- Python `str.strip()`: drop leading and trailing whitespace. -/
def pyStrip (s : String) : String :=
  String.mk (((s.data.dropWhile Char.isWhitespace).reverse.dropWhile
    Char.isWhitespace).reverse)

/-- Helper for `str.splitlines()`, modelled as splitting on newline. -/
def splitLinesAux : List Char → List Char → List (List Char)
  | [], acc => [acc.reverse]
  | '\n' :: rest, acc => acc.reverse :: splitLinesAux rest []
  | c :: rest, acc => splitLinesAux rest (c :: acc)

def pySplitLines (s : String) : List String :=
  (splitLinesAux s.data []).map String.mk

/-- `strip_text` (lines 132-152): collapse a multi-line text into one
whitespace-stripped line. -/
def strip_text (text : String) : String :=
  let lines := pySplitLines text
  if lines.length > 1 then
    pyStrip (lines.foldl (fun out line => out ++ pyStrip line ++ " ") "")
  else
    pyStrip text

/-- `get_xml_text` (lines 154-166). -/
def get_xml_text (tagName : String) (xml : Xml) (dflt : String) (fullStrip : Bool) :
    String :=
  match xml.find tagName with
  | none => dflt
  | some el =>
    match el.text with
    | none => dflt
    | some t => if fullStrip = true then strip_text t else pyStrip t

/-! ### Python int conversions -/

def decDigitVal (c : Char) : Option Nat :=
  if c.isDigit then some (c.toNat - '0'.toNat) else none

def hexDigitVal (c : Char) : Option Nat :=
  if c.isDigit then some (c.toNat - '0'.toNat)
  else if 'a' ≤ c ∧ c ≤ 'f' then some (c.toNat - 'a'.toNat + 10)
  else if 'A' ≤ c ∧ c ≤ 'F' then some (c.toNat - 'A'.toNat + 10)
  else none

def digitsToNat (base : Nat) (digitVal : Char → Option Nat) (cs : List Char) :
    Option Nat :=
  if cs.isEmpty then none
  else
    cs.foldl (fun acc c =>
      match acc, digitVal c with
      | some a, some d => some (a * base + d)
      | _, _ => none) (some 0)

def pyIntMag (base : Nat) (digitVal : Char → Option Nat) (allowHexPrefix : Bool)
    (cs : List Char) : Option Nat :=
  match allowHexPrefix, cs with
  | true, '0' :: 'x' :: rest => digitsToNat base digitVal rest
  | true, '0' :: 'X' :: rest => digitsToNat base digitVal rest
  | _, _ => digitsToNat base digitVal cs

def pyIntOfChars (base : Nat) (digitVal : Char → Option Nat) (allowHexPrefix : Bool)
    (cs : List Char) : Option Int :=
  match cs with
  | '-' :: rest => (pyIntMag base digitVal allowHexPrefix rest).map (fun n => -(n : Int))
  | '+' :: rest => (pyIntMag base digitVal allowHexPrefix rest).map (fun n => (n : Int))
  | _ => (pyIntMag base digitVal allowHexPrefix cs).map (fun n => (n : Int))

/-- Python `int(s)`: ValueError when `s` is not a decimal integer literal. -/
def pyIntDec (s : String) : Except PyErr Int :=
  match pyIntOfChars 10 decDigitVal false (pyStrip s).data with
  | some i => .ok i
  | none => .error .valueError

/-- Python `int(s, 16)`: ValueError when `s` is not a hex integer literal. -/
def pyIntHex (s : String) : Except PyErr Int :=
  match pyIntOfChars 16 hexDigitVal true (pyStrip s).data with
  | some i => .ok i
  | none => .error .valueError

/-! ### bitRange parsing (lines 417-426) -/

/-- `int` of a nonempty run of decimal digit characters (a regex `\d+` group). -/
def digitsVal (cs : List Char) : Nat :=
  cs.foldl (fun a c => a * 10 + (c.toNat - '0'.toNat)) 0

/-- `re.match(r'\[(\d+):(\d+)\]', s)`: anchored at the start only (no `$`),
so trailing characters are allowed; returns the two digit groups. -/
def matchBitRange (s : List Char) : Option (List Char × List Char) :=
  match s with
  | '[' :: rest =>
    let d1 := rest.takeWhile Char.isDigit
    let r1 := rest.dropWhile Char.isDigit
    if d1.isEmpty then none
    else
      match r1 with
      | ':' :: rest2 =>
        let d2 := rest2.takeWhile Char.isDigit
        let r2 := rest2.dropWhile Char.isDigit
        if d2.isEmpty then none
        else
          match r2 with
          | ']' :: _ => some (d1, d2)
          | _ => none
      | _ => none
  | _ => none

/-- Lines 418-426 applied to the stripped bitRange text: when the regex
matches, `field_offset = int(m[1])` and `field_width = int(m[2]) - int(m[1]) + 1`.
Returns `none` when the regex does not match (in the source `m` is then `None`
and the subsequent `m.groups()` raises AttributeError). -/
def bitRange_offset_width (s : String) : Option (Int × Int) :=
  (matchBitRange s.data).map
    (fun g => ((digitsVal g.1 : Int), (digitsVal g.2 : Int) - (digitsVal g.1 : Int) + 1))

/-! ### Register and field loading (load_registers, lines 360-491) -/

def mapExcept (f : α → Except PyErr β) : List α → Except PyErr (List β)
  | [] => .ok []
  | x :: xs =>
    match f x with
    | .error e => .error e
    | .ok y => (mapExcept f xs).map (fun ys => y :: ys)

/-- Lines 383-393: `match size_xml` dispatch to the canonical C type. -/
def registerTypeFor (size : Int) : String :=
  if size = 64 then "uint64_t"
  else if size = 32 then "uint32_t"
  else if size = 16 then "uint16_t"
  else if size = 8 then "uint8_t"
  else "UNKNOWN"

/-- Lines 397-441: parse one `<field>` element.
Failure modes of the source, in evaluation order:
a `bitOffset`/`bitWidth` element whose `.text` is `None` raises
AttributeError at `.strip()` (lines 407-408); a field with no
`bitOffset`/`bitWidth` pair and no `bitRange` element reaches the
diagnostic print of line 414, which interpolates the UNDEFINED variables
`name` and `field_name` and therefore raises NameError before the
`return []` on line 415 can run; a present but non-matching bitRange makes
`re.match` return `None`, so `len(m.groups())` on line 420 raises
AttributeError before the `return []` on line 422 (when the regex does
match, it always has exactly 2 groups, so that guard is never taken);
`access_xml.text` being `None` raises AttributeError at `.strip()`
(line 432); `int()` on a non-numeric offset/width string (line 438)
raises ValueError. -/
def loadField (field : Xml) : Except PyErr Field :=
  let field_name := get_xml_text "name" field "" true
  let field_desc := get_xml_text "description" field "" true
  let readonlyOf : Except PyErr Bool :=
    match field.find "access" with
    | none => .ok false
    | some ax =>
      match ax.text with
      | none => .error .attributeError
      | some t => .ok (pyStrip t == "read-only")
  match field.find "bitOffset", field.find "bitWidth" with
  | some bo, some bw =>
    match bo.text, bw.text with
    | some ot, some wt =>
      match readonlyOf with
      | .error e => .error e
      | .ok ro =>
        match pyIntDec (pyStrip ot), pyIntDec (pyStrip wt) with
        | .ok o, .ok w => .ok ⟨field_name, field_desc, o, w, ro⟩
        | .error e, _ => .error e
        | _, .error e => .error e
    | _, _ => .error .attributeError
  | _, _ =>
    match field.find "bitRange" with
    | none => .error .nameError
    | some br =>
      match br.text with
      | none => .error .attributeError
      | some t =>
        match bitRange_offset_width (pyStrip t) with
        | none => .error .attributeError
        | some ow =>
          match readonlyOf with
          | .error e => .error e
          | .ok ro => .ok ⟨field_name, field_desc, ow.1, ow.2, ro⟩

/-- Lines 364-488: parse one `<register>` element, then normalize its field
list (lines 444-485) before constructing the `Register`. -/
def loadRegister (register : Xml) : Except PyErr Register :=
  let name := get_xml_text "name" register "" true
  let description := get_xml_text "description" register "" true
  match pyIntHex (get_xml_text "size" register "" true) with
  | .error e => .error e
  | .ok size =>
    match pyIntHex (get_xml_text "addressOffset" register "" true) with
    | .error e => .error e
    | .ok offset =>
      let resetText := get_xml_text "resetValue" register "" true
      match (if resetText == "" then Except.ok 0 else pyIntHex resetText) with
      | .error e => .error e
      | .ok reset =>
        let rtype := registerTypeFor size
        match
          (match register.find "fields" with
           | none => Except.ok []
           | some fx => mapExcept loadField fx.children) with
        | .error e => .error e
        | .ok fields =>
          .ok ⟨size, offset, name, description, rtype, normalizeFields fields,
            false, reset⟩

/-- `load_registers` (lines 360-491).  The `registers` argument receives
`peripheral.find('registers')`, which can be `None`; `for register in registers`
then raises TypeError (NoneType is not iterable). -/
def loadRegisters (peripheral_name : String) (registers : Option Xml) :
    Except PyErr (List Register) :=
  match registers with
  | none => .error .typeError
  | some el => mapExcept loadRegister el.children

/-- `load_peripheral` (lines 318-358): load the registers (propagating any
exception), return `None` when the register list is empty, otherwise
normalize the register layout and build the `Peripheral`. -/
def loadPeripheral (peripheral : Xml) : Except PyErr (Option Peripheral) :=
  let name_xml := get_xml_text "name" peripheral "" true
  let description_xml := get_xml_text "description" peripheral "" true
  match loadRegisters name_xml (peripheral.find "registers") with
  | .error e => .error e
  | .ok registers =>
    if registers.isEmpty then .ok none
    else .ok (some (mkPeripheral name_xml description_xml
      (normalizeRegisters registers)))

/-- The peripheral loop of `main` (lines 590-621), restricted to its
data-flow core: peripherals carrying a `derivedFrom` attribute are skipped,
a `None` result from `load_peripheral` skips the peripheral, an exception
propagates and aborts the whole loop.  Output-path routing, duplicate
detection and file writing are I/O and are not modelled here. -/
def processPeripherals : List Xml → Except PyErr (List Peripheral)
  | [] => .ok []
  | px :: rest =>
    if px.attrib.any (fun kv => kv.1 == "derivedFrom") then processPeripherals rest
    else
      match loadPeripheral px with
      | .error e => .error e
      | .ok none => processPeripherals rest
      | .ok (some p) => (processPeripherals rest).map (fun ps => p :: ps)

/-! ### Bit arithmetic and rendering (print_registers, lines 168-263;
print_peripheral, lines 265-316)

All shift counts appearing here are field offsets, which are nonnegative in
every reachable call (they come from `\d+` regex groups or from the widths
enumerated by `range`); a negative shift count would raise ValueError in
Python, and the mask accumulator is a plain nonnegative Python int, so the
mask arithmetic is modelled over `Nat`. -/

/-- The inner mask loop (lines 232-234 and 248-250):
`for i in range(field.width): mask |= (1 << (i + field.offset))`,
starting from accumulator `m`. -/
def field_mask_acc (m : Nat) (f : Field) : Nat :=
  (List.range f.width.toNat).foldl (fun mask i => mask ||| (1 <<< (i + f.offset.toNat))) m

/-- The per-field mask variable computed at lines 248-250 (starts at 0). -/
def field_mask (f : Field) : Nat := field_mask_acc 0 f

/-- Numeric value of the multi-bit `_Msk` constant emitted at line 252:
the emitted C text is `(0x{mask:X} << {..}_Pos)` where `mask` is
`field_mask f` (which already includes the offset shift) and `_Pos` expands
to `field.offset`, so the constant evaluates to `field_mask f <<< offset`. -/
def emitted_msk_value (f : Field) : Nat := field_mask f <<< f.offset.toNat

/-- Numeric value of the single-bit mask emitted at line 243: the emitted C
text is `(1 << {..}_Pos)`, which evaluates to `1 <<< offset`. -/
def emitted_single_bit_value (f : Field) : Nat := 1 <<< f.offset.toNat

def hexDigitChar (n : Nat) : Char :=
  if n < 10 then Char.ofNat ('0'.toNat + n) else Char.ofNat ('A'.toNat + (n - 10))

def natHexAux : Nat → Nat → List Char
  | 0, _ => []
  | _ + 1, 0 => []
  | fuel + 1, n + 1 =>
    natHexAux fuel ((n + 1) / 16) ++ [hexDigitChar ((n + 1) % 16)]

/-- Python `format(n, 'X')` for a nonnegative int. -/
def natToHexUpper (n : Nat) : String :=
  if n = 0 then "0" else String.mk (natHexAux (n + 1) n)

/-- Python `f'{i:X}'` for a Python int. -/
def intToHexUpper (i : Int) : String :=
  if i < 0 then "-" ++ natToHexUpper (-i).toNat else natToHexUpper i.toNat

/-- Lines 202-211: the `Bit N` / `Bits N-M` comment of a field line. -/
def positionText (f : Field) : String :=
  let start := f.offset
  let stop := f.offset + f.width - 1
  if start = stop then "Bit " ++ toString start
  else "Bits " ++ toString start ++ "-" ++ toString stop

/-- Lines 195-221: one member line of the bitfield struct. -/
def fieldLineText (rtype : String) (f : Field) : String :=
  "\t\t" ++ (if f.readonly = true then "const " else "")
    ++ rtype ++ (if f.name.length > 0 then " " ++ f.name else "")
    ++ ": " ++ toString f.width ++ ";\t// " ++ positionText f ++ ": "
    ++ f.description ++ "\n"

/-- Lines 238-254: the `_Pos`, mask, `_Val` and constructor macros of one
named field.  `lastNamed` is `filtered[-1]`; the source compares against it
with structural equality to decide whether to append a blank line. -/
def namedFieldMacros (pname rname rtype : String) (lastNamed : Option Field)
    (f : Field) : String :=
  let base := pname ++ "_" ++ rname ++ "_" ++ f.name
  "#define " ++ base ++ "_Pos\t((" ++ rtype ++ ")" ++ toString f.offset ++ ")\n"
    ++ (if f.width = 1 then
          "#define " ++ base ++ "\t((" ++ rtype ++ ")(1 << " ++ base ++ "_Pos))\n"
            ++ (if lastNamed = some f then "" else "\n")
        else
          "#define " ++ base ++ "_Msk\t((" ++ rtype ++ ")(0x"
            ++ natToHexUpper (field_mask f) ++ " << " ++ base ++ "_Pos))\n"
            ++ "#define " ++ base ++ "_Val(v)\t((" ++ rtype ++ ")(((v) & " ++ base
            ++ "_Msk) >> " ++ base ++ "_Pos))\n"
            ++ "#define " ++ base ++ "(v)\t((" ++ rtype ++ ")(((v) << " ++ base
            ++ "_Pos) & " ++ base ++ "_Msk)\n")

/-- Lines 188-254: the full union/macro block of one register. -/
def renderUnion (pname pdesc : String) (register : Register) : String :=
  let header := "// ---------- " ++ pdesc ++ " " ++ register.description
    ++ " ----------\n" ++ "typedef union\n\x7b\n\tstruct\n\t\x7b\n"
  let body := register.fields.foldl (fun u f => u ++ fieldLineText register.type f) header
  let u1 := body ++ "\t\x7d bit;\n\t" ++ register.type ++ " reg;\n\x7d "
    ++ pname ++ "_" ++ register.name ++ "_t;\n\n"
  let u2 := u1 ++ "#define " ++ pname ++ "_" ++ register.name ++ "_RESETVALUE\t(("
    ++ register.type ++ ")0x" ++ intToHexUpper register.reset ++ ")\n"
  let filtered := register.fields.filter (fun f => f.name.length > 0)
  let u3 := u2 ++ "#define " ++ pname ++ "_" ++ register.name ++ "_Mask\t(("
    ++ register.type ++ ")0x" ++ natToHexUpper (filtered.foldl field_mask_acc 0)
    ++ ")\n\n"
  filtered.foldl
    (fun u f => u ++ namedFieldMacros pname register.name register.type
      filtered.getLast? f) u3

/-- `print_registers` (lines 168-263): one union/macro text block per register
that has at least one field, in register order. -/
def print_registers (peripheral : Peripheral) : List String :=
  (peripheral.registers.filter (fun r => r.fields.length ≥ 1)).map
    (renderUnion peripheral.name peripheral.description)

/-- `print_peripheral` (lines 265-316): the two struct variants. -/
def print_peripheral (peripheral : Peripheral) : String :=
  let s1 := "#ifdef BITMASK\n\ttypedef struct\n\t\x7b\n"
  let s2 := peripheral.registers.foldl (fun s r =>
    s ++ (if r.reserved = true then
            "\t\tconst volatile uint32_t: " ++ toString r.size ++ ";\t// Reserved\n"
          else if r.fields.length > 0 then
            "\t\tvolatile " ++ peripheral.name ++ "_" ++ r.name ++ "_t " ++ r.name
              ++ ";\t// " ++ r.description ++ "\n"
          else
            "\t\tvolatile " ++ r.type ++ " " ++ r.name ++ ";\t// "
              ++ r.description ++ "\n")) s1
  let s3 := s2 ++ "\t\x7d " ++ peripheral.name ++ "_t;\n"
    ++ "#else\n\ttypedef struct\n\t\x7b\n"
  let s4 := peripheral.registers.foldl (fun s r =>
    s ++ (if r.reserved = true then
            "\t\tconst volatile uint32_t: " ++ toString r.size ++ ";\t// Reserved\n"
          else
            "\t\tvolatile " ++ r.type ++ " " ++ r.name ++ ";\t// "
              ++ r.description ++ "\n")) s3
  s4 ++ "\t\x7d " ++ peripheral.name ++ "_t;\n" ++ "#endif"

/-! ### Structural equality (Peripheral.__eq__ lines 25-39,
Register.__eq__ lines 72-101, Field.__eq__ lines 114-130) -/

/-- The length check plus element-wise loop used by all three `__eq__`
methods to compare lists. -/
def listEqBy (eq : α → α → Bool) : List α → List α → Bool
  | [], [] => true
  | x :: xs, y :: ys => eq x y && listEqBy eq xs ys
  | _, _ => false

/-- Field.__eq__ (lines 114-130): all five attributes. -/
def fieldEq (a b : Field) : Bool :=
  a.name == b.name && a.description == b.description && a.offset == b.offset
    && a.width == b.width && a.readonly == b.readonly

/-- Register.__eq__ (lines 72-101): all attributes, fields deeply. -/
def registerEq (a b : Register) : Bool :=
  a.size == b.size && a.offset == b.offset && a.name == b.name
    && a.description == b.description && a.type == b.type
    && listEqBy fieldEq a.fields b.fields && a.reserved == b.reserved
    && a.reset == b.reset

/-- Peripheral.__eq__ (lines 25-39): canonical name, description and the
deep register list; `realname` and `path` are not compared. -/
def peripheralEq (a b : Peripheral) : Bool :=
  a.name == b.name && a.description == b.description
    && listEqBy registerEq a.registers b.registers

/-! ### Coverage predicates used to state the layout invariants -/

/-- Does field `f` occupy bit `b`? -/
def coversBit (b : Int) (f : Field) : Bool :=
  decide (f.offset ≤ b) && decide (b < f.offset + f.width)

/-- Two fields occupy disjoint bit ranges. -/
def FieldDisjoint (f g : Field) : Prop :=
  f.offset + f.width ≤ g.offset ∨ g.offset + g.width ≤ f.offset

/-- Adjacent elements never overlap: each element ends no later than the
next one starts. -/
def chainOk : List Field → Prop
  | a :: b :: rest => a.offset + a.width ≤ b.offset ∧ chainOk (b :: rest)
  | _ => True

/-- End bit of the last element (0 for the empty list). -/
def lastEndF (l : List Field) : Int :=
  match lastF l with
  | some z => z.offset + z.width
  | none => 0

/-- Indicator of the half-open interval `[lo, hi)`. -/
def ival (lo hi b : Int) : Nat := if lo ≤ b ∧ b < hi then 1 else 0

/-! ### Concrete documents used to evaluate the code on specific inputs -/

/-- A leaf element holding only text. -/
def elemT (tagName : String) (txt : String) : Xml := Xml.mk tagName [] (some txt) []

/-- A register whose single field carries neither a `bitOffset`/`bitWidth`
pair nor a `bitRange` element. -/
def badFieldReg : Xml :=
  Xml.mk "register" [] none
    [elemT "name" "CR", elemT "description" "control", elemT "size" "20",
     elemT "addressOffset" "0",
     Xml.mk "fields" [] none
       [Xml.mk "field" [] none [elemT "name" "EN", elemT "description" "enable"]]]

/-- A register whose single field carries a malformed `bitRange` string. -/
def badRangeReg : Xml :=
  Xml.mk "register" [] none
    [elemT "name" "CR", elemT "size" "20", elemT "addressOffset" "0",
     Xml.mk "fields" [] none
       [Xml.mk "field" [] none [elemT "name" "EN", elemT "bitRange" "oops"]]]

/-- A well-formed peripheral with one fieldless register. -/
def goodPeriph : Xml :=
  Xml.mk "peripheral" [] none
    [elemT "name" "UART0", elemT "description" "uart",
     Xml.mk "registers" [] none
       [Xml.mk "register" [] none
         [elemT "name" "CR", elemT "description" "ctl", elemT "size" "20",
          elemT "addressOffset" "0"]]]

/-- A non-derived peripheral element with no `registers` child. -/
def noRegsPeriph : Xml :=
  Xml.mk "peripheral" [] none [elemT "name" "BAD", elemT "description" "bad"]

/-! ## Theorems -/

/-! ### Canonical name derivation -/

theorem lastSplit (l : List Char) (h : l ≠ []) :
    ∃ c, l.getLast? = some c ∧ l.drop (l.length - 1) = [c]
      ∧ l.take (l.length - 1) = l.dropLast := by
  induction l with
  | nil => exact absurd rfl h
  | cons a t ih =>
    cases t with
    | nil => exact ⟨a, rfl, rfl, rfl⟩
    | cons b t2 =>
      obtain ⟨c, hc1, hc2, hc3⟩ := ih (by simp)
      refine ⟨c, ?_, ?_, ?_⟩
      · simpa using hc1
      · have hlen : (a :: b :: t2).length - 1 = (b :: t2).length - 1 + 1 := by
          simp
        rw [hlen, List.drop_succ_cons, hc2]
      · have hlen : (a :: b :: t2).length - 1 = (b :: t2).length - 1 + 1 := by
          simp
        rw [hlen, List.take_succ_cons, hc3]
        simp [List.dropLast]

theorem all_take (l : List Char) (p : Char → Bool) (k : Nat) (h : l.all p = true) :
    (l.take k).all p = true := by
  rw [List.all_eq_true] at h ⊢
  exact fun c hc => h c (List.take_subset k l hc)

/-- C6 (amended): when `realname` consists entirely of word characters, has
length at least 2 and ends in a digit, the greedy regex strips exactly the
final character, i.e. one trailing digit, not the whole trailing digit run;
in every other case the name is returned unchanged by the regex failing. -/
theorem c6_strips_exactly_one_digit (s : String) (c : Char)
    (h2 : 2 ≤ s.data.length) (hw : s.data.all isWordChar = true)
    (hlast : s.data.getLast? = some c) (hdig : c.isDigit = true) :
    canonicalName s = String.mk s.data.dropLast := by
  obtain ⟨c', hc1, hc2, hc3⟩ := lastSplit s.data (by
    intro hnil
    rw [hnil] at h2
    simp at h2)
  rw [hlast] at hc1
  obtain rfl : c = c' := Option.some.inj hc1
  have hall : (s.data.take (s.data.length - 1)).all isWordChar = true :=
    all_take s.data isWordChar _ hw
  have hsplit : splitOkAt s.data (s.data.length - 1) = true := by
    unfold splitOkAt
    rw [hc2, hall]
    simp [hdig]
  obtain ⟨m, hm⟩ : ∃ m, s.data.length - 1 = m + 1 :=
    ⟨s.data.length - 2, by omega⟩
  unfold canonicalName
  rw [hm] at hsplit ⊢
  rw [greedyGroup, if_pos hsplit, ← hm]
  show String.mk (s.data.take (s.data.length - 1)) = String.mk s.data.dropLast
  rw [hc3]

/-- C6 witness: the general characterization applied to `TIMER10`. -/
theorem c6_strips_exactly_one_digit_witness :
    canonicalName "TIMER10" = String.mk "TIMER10".data.dropLast :=
  c6_strips_exactly_one_digit "TIMER10" '0' (by decide) (by decide) (by decide)
    (by decide)

/-- C6 counterexample: deriving the canonical name of `TIMER10` yields
`TIMER1`, not `TIMER` (the whole trailing digit run is NOT stripped), and
applying the derivation again changes the result, so the derivation is not
idempotent. -/
theorem c6_counterexample :
    canonicalName "TIMER10" = "TIMER1"
    ∧ canonicalName "TIMER10" ≠ "TIMER"
    ∧ canonicalName (canonicalName "TIMER10") ≠ canonicalName "TIMER10" := by
  decide

/-! ### Structural equality -/

theorem fieldEq_iff (a b : Field) : fieldEq a b = true ↔ a = b := by
  cases a
  cases b
  simp [fieldEq, and_assoc]

theorem listEqBy_fieldEq_iff :
    ∀ xs ys : List Field, listEqBy fieldEq xs ys = true ↔ xs = ys := by
  intro xs
  induction xs with
  | nil =>
    intro ys
    cases ys <;> simp [listEqBy]
  | cons x xs ih =>
    intro ys
    cases ys with
    | nil => simp [listEqBy]
    | cons y ys => simp [listEqBy, Bool.and_eq_true, fieldEq_iff, ih]

theorem registerEq_iff (a b : Register) : registerEq a b = true ↔ a = b := by
  cases a
  cases b
  simp [registerEq, listEqBy_fieldEq_iff, and_assoc]

theorem listEqBy_registerEq_iff :
    ∀ xs ys : List Register, listEqBy registerEq xs ys = true ↔ xs = ys := by
  intro xs
  induction xs with
  | nil =>
    intro ys
    cases ys <;> simp [listEqBy]
  | cons x xs ih =>
    intro ys
    cases ys with
    | nil => simp [listEqBy]
    | cons y ys => simp [listEqBy, Bool.and_eq_true, registerEq_iff, ih]

theorem peripheralEq_iff (a b : Peripheral) :
    peripheralEq a b = true
      ↔ a.name = b.name ∧ a.description = b.description ∧ a.registers = b.registers := by
  simp [peripheralEq, Bool.and_eq_true, listEqBy_registerEq_iff, and_assoc]

/-- C8: peripheral structural equality is reflexive, symmetric, and holds
whenever the canonical name, description and deep register list agree, no
matter what `realname` and `path` are: two peripherals that differ only in
`realname` and `path` are equal. -/
theorem c8_structural_equality :
    (∀ p : Peripheral, peripheralEq p p = true)
    ∧ (∀ p q : Peripheral, peripheralEq p q = peripheralEq q p)
    ∧ (∀ p q : Peripheral, p.name = q.name → p.description = q.description →
        p.registers = q.registers → peripheralEq p q = true) := by
  refine ⟨?_, ?_, ?_⟩
  · intro p
    exact (peripheralEq_iff p p).mpr ⟨rfl, rfl, rfl⟩
  · intro p q
    by_cases h : p.name = q.name ∧ p.description = q.description ∧ p.registers = q.registers
    · have h1 : peripheralEq p q = true := (peripheralEq_iff p q).mpr h
      have h2 : peripheralEq q p = true :=
        (peripheralEq_iff q p).mpr ⟨h.1.symm, h.2.1.symm, h.2.2.symm⟩
      rw [h1, h2]
    · have h1 : peripheralEq p q = false := by
        rcases hpq : peripheralEq p q with _ | _
        · rfl
        · exact absurd ((peripheralEq_iff p q).mp hpq) h
      have h2 : peripheralEq q p = false := by
        rcases hqp : peripheralEq q p with _ | _
        · rfl
        · obtain ⟨e1, e2, e3⟩ := (peripheralEq_iff q p).mp hqp
          exact absurd ⟨e1.symm, e2.symm, e3.symm⟩ h
      rw [h1, h2]
  · intro p q h1 h2 h3
    exact (peripheralEq_iff p q).mpr ⟨h1, h2, h3⟩

/-- C8 witness: two peripherals with the same structure but different
`realname` and `path` compare equal. -/
theorem c8_structural_equality_witness :
    peripheralEq
      ⟨"UART", "UART0", "uart",
        [⟨4, 0, "CR", "ctl", "uint32_t", [⟨"EN", "en", 0, 1, false⟩], false, 0⟩], ""⟩
      ⟨"UART", "UART1", "uart",
        [⟨4, 0, "CR", "ctl", "uint32_t", [⟨"EN", "en", 0, 1, false⟩], false, 0⟩],
        "duplicate/chip_uart1.h"⟩ = true :=
  c8_structural_equality.2.2 _ _ rfl rfl rfl

/-! ### Rendering -/

/-- C9: rendering is a pure function of the normalized model: the register
union/macro blocks and the two struct variants depend only on the
peripheral's canonical name, description and register list (in particular
not on `realname` or `path`), so rendering the same normalized peripheral
any number of times produces byte-for-byte identical text. -/
theorem c9_render_deterministic (p q : Peripheral) (h1 : p.name = q.name)
    (h2 : p.description = q.description) (h3 : p.registers = q.registers) :
    print_registers p = print_registers q ∧ print_peripheral p = print_peripheral q := by
  constructor
  · simp only [print_registers, h1, h2, h3]
  · simp only [print_peripheral, h1, h3]

/-- C9 witness: the same normalized structure rendered from two peripheral
records that differ only in `realname` and `path` gives identical text (and
rendering twice trivially re-produces the same text). -/
theorem c9_render_deterministic_witness :
    print_registers
        ⟨"TC", "TC0", "timer",
          [⟨4, 0, "CR", "ctl", "uint32_t",
            [⟨"EN", "en", 0, 1, false⟩, ⟨"", "Reserved", 1, 31, true⟩], false, 0⟩], ""⟩
      = print_registers
        ⟨"TC", "TC1", "timer",
          [⟨4, 0, "CR", "ctl", "uint32_t",
            [⟨"EN", "en", 0, 1, false⟩, ⟨"", "Reserved", 1, 31, true⟩], false, 0⟩],
          "duplicate/chip_tc1.h"⟩
    ∧ print_peripheral
        ⟨"TC", "TC0", "timer",
          [⟨4, 0, "CR", "ctl", "uint32_t",
            [⟨"EN", "en", 0, 1, false⟩, ⟨"", "Reserved", 1, 31, true⟩], false, 0⟩], ""⟩
      = print_peripheral
        ⟨"TC", "TC1", "timer",
          [⟨4, 0, "CR", "ctl", "uint32_t",
            [⟨"EN", "en", 0, 1, false⟩, ⟨"", "Reserved", 1, 31, true⟩], false, 0⟩],
          "duplicate/chip_tc1.h"⟩ :=
  c9_render_deterministic _ _ rfl rfl rfl

/-! ### Mask emission -/

/-- C4: the single-bit mask emitted for a named field of width 1 at offset 5
does evaluate to `1 <<< 5`, and the internal mask variable for a width-4
field at offset 4 is the expected `((1 <<< 4) - 1) <<< 4 = 0xF0`; but the
emitted `_Msk` constant is that already-shifted mask shifted AGAIN by `_Pos`
in the generated C text, so it evaluates to `0xF00`, not to the
`((1 << width) - 1) << offset` the claim states. -/
theorem c4_msk_double_shift :
    emitted_single_bit_value ⟨"B", "b", 5, 1, false⟩ = 1 <<< 5
    ∧ field_mask ⟨"X", "x", 4, 4, false⟩ = ((1 <<< 4) - 1) <<< 4
    ∧ emitted_msk_value ⟨"X", "x", 4, 4, false⟩ = (((1 <<< 4) - 1) <<< 4) <<< 4
    ∧ emitted_msk_value ⟨"X", "x", 4, 4, false⟩ ≠ ((1 <<< 4) - 1) <<< 4 := by
  decide

/-! ### Register-level normalization -/

/-- C1: for a peripheral whose only register sits at byte offset 4 (size 4),
normalization inserts `Register(0, 3)` (a SIZE-0 register at OFFSET 3, the
constructor arguments being `(size, offset)`), plus the size-1 reserved
register the gap scan then adds at offset 3.  The normalized list therefore
starts at offset 3, not 0, and no register covers byte 0: the claimed
synthesized register of size 4 at offset 0 does not exist and the
`[0, lastEnd)` coverage fails. -/
theorem c1_register_head_bug :
    normalizeRegisters [⟨4, 4, "A", "rega", "uint32_t", [], false, 0⟩]
      = [⟨0, 3, "", "", "UNKNOWN", [], true, 0⟩,
         ⟨1, 3, "", "", "UNKNOWN", [], true, 0⟩,
         ⟨4, 4, "A", "rega", "uint32_t", [], false, 0⟩]
    ∧ ((normalizeRegisters [⟨4, 4, "A", "rega", "uint32_t", [], false, 0⟩]).head?.map
        Register.offset) = some 3
    ∧ (normalizeRegisters [⟨4, 4, "A", "rega", "uint32_t", [], false, 0⟩]).countP
        (fun r => decide (r.offset ≤ 0) && decide ((0 : Int) < r.offset + r.size)) = 0 := by
  decide

/-! ### Field-level reserved-head synthesis -/

/-- C5: for a register whose single field starts at bit offset 4, the
reserved field inserted at offset 0 has width 3 (`start_next - 1`), not the
claimed width 4; a second width-1 reserved field is then produced by the gap
scan.  No reserved field of width 4 at offset 0 exists in the result. -/
theorem c5_reserved_head_width_bug :
    normalizeFields [⟨"EN", "enable", 4, 28, false⟩]
      = [⟨"", "Reserved", 0, 3, true⟩, ⟨"", "Reserved", 3, 1, true⟩,
         ⟨"EN", "enable", 4, 28, false⟩]
    ∧ (normalizeFields [⟨"EN", "enable", 4, 28, false⟩]).countP
        (fun f => decide (f.offset = 0) && decide (f.width = 4)) = 0 := by
  decide

/-! ### bitRange parsing -/

/-- C3: the bitRange parser applied to `[7:4]` takes the FIRST number as the
offset and computes `second - first + 1` as the width, yielding offset 7 and
width -2, not the claimed offset 4 and width 4 (the code reads the range as
`[lsb:msb]` while SVD bitRange strings are `[msb:lsb]`). -/
theorem c3_bitrange_msb_lsb_swapped :
    bitRange_offset_width "[7:4]" = some (7, -2)
    ∧ bitRange_offset_width "[7:4]" ≠ some (4, 4) := by
  decide

/-! ### Field parse failure handling -/

/-- C7: a field with neither a `bitOffset`/`bitWidth` pair nor a `bitRange`
element makes `load_registers` raise NameError (the diagnostic print on line
414 interpolates the undefined variables `name` and `field_name` before
`return []` can run), and a malformed bitRange raises AttributeError
(`m.groups()` on `None`, line 420).  In both cases an exception propagates
instead of the claimed empty-list return. -/
theorem c7_unparsable_field_raises :
    loadRegisters "P" (some (Xml.mk "registers" [] none [badFieldReg]))
      = Except.error PyErr.nameError
    ∧ loadRegisters "P" (some (Xml.mk "registers" [] none [badRangeReg]))
      = Except.error PyErr.attributeError := by
  decide

/-! ### Field-level coverage invariant (C2): supporting lemmas -/

theorem ival_add (lo mid hi b : Int) (h1 : lo ≤ mid) (h2 : mid ≤ hi) :
    ival lo mid b + ival mid hi b = ival lo hi b := by
  unfold ival
  split_ifs <;> omega

theorem coversBit_iff (b : Int) (f : Field) :
    coversBit b f = true ↔ f.offset ≤ b ∧ b < f.offset + f.width := by
  simp [coversBit]

theorem countP_covers_cons (f : Field) (l : List Field) (b : Int) :
    (f :: l).countP (coversBit b)
      = l.countP (coversBit b) + ival f.offset (f.offset + f.width) b := by
  by_cases h : f.offset ≤ b ∧ b < f.offset + f.width
  · simp [List.countP_cons, ival, coversBit_iff, h]
  · simp [List.countP_cons, ival, coversBit_iff, h]

theorem lastF_cons_cons (a b : Field) (rest : List Field) :
    lastF (a :: b :: rest) = lastF (b :: rest) := rfl

theorem lastEndF_cons_cons (a b : Field) (rest : List Field) :
    lastEndF (a :: b :: rest) = lastEndF (b :: rest) := rfl

theorem lastF_isSome : ∀ (l : List Field), l ≠ [] → ∃ z, lastF l = some z
  | [], h => absurd rfl h
  | [a], _ => ⟨a, rfl⟩
  | _ :: b :: rest, _ => lastF_isSome (b :: rest) (by simp)

theorem lastF_mem : ∀ (l : List Field) (z : Field), lastF l = some z → z ∈ l
  | [], _, h => by simp [lastF] at h
  | [a], z, h => by
    rw [lastF] at h
    rw [← Option.some.inj h]
    exact List.mem_singleton_self a
  | a :: b :: rest, z, h =>
    List.mem_cons_of_mem a (lastF_mem (b :: rest) z h)

theorem chain_head_le_lastEnd :
    ∀ (rest : List Field) (a : Field), chainOk (a :: rest) →
      (∀ f ∈ a :: rest, 0 ≤ f.width) → a.offset ≤ lastEndF (a :: rest)
  | [], a, _, hw => by
    have := hw a (List.mem_cons_self a [])
    show a.offset ≤ a.offset + a.width
    omega
  | b :: r, a, hchain, hw => by
    have hab : a.offset + a.width ≤ b.offset := hchain.1
    have hb := chain_head_le_lastEnd r b hchain.2
      (fun f hf => hw f (List.mem_cons_of_mem a hf))
    have ha := hw a (List.mem_cons_self a (b :: r))
    rw [lastEndF_cons_cons]
    omega

theorem chain_mem_end_le :
    ∀ (rest : List Field) (a : Field), chainOk (a :: rest) →
      (∀ f ∈ a :: rest, 0 ≤ f.width) →
      ∀ y ∈ a :: rest, y.offset + y.width ≤ lastEndF (a :: rest)
  | [], a, _, _ => by
    intro y hy
    rw [List.mem_singleton.mp hy]
    show a.offset + a.width ≤ a.offset + a.width
    exact le_refl _
  | b :: r, a, hchain, hw => by
    intro y hy
    rw [lastEndF_cons_cons]
    rcases List.mem_cons.mp hy with h | h
    · have hab : a.offset + a.width ≤ b.offset := hchain.1
      have hb := chain_head_le_lastEnd r b hchain.2
        (fun f hf => hw f (List.mem_cons_of_mem a hf))
      rw [h]
      omega
    · exact chain_mem_end_le r b hchain.2
        (fun f hf => hw f (List.mem_cons_of_mem a hf)) y h

theorem fills_shape :
    ∀ (l : List Field), ∀ y ∈ fieldGapFills l,
      y.name = "" ∧ y.description = "Reserved" ∧ y.readonly = true ∧ 0 < y.width
  | [] => by simp [fieldGapFills]
  | [a] => by simp [fieldGapFills]
  | a :: b :: rest => by
    intro y hy
    rw [fieldGapFills] at hy
    rcases List.mem_append.mp hy with h | h
    · by_cases hg : b.offset - (a.offset + a.width) > 0
      · rw [if_pos hg] at h
        rw [List.mem_singleton.mp h]
        exact ⟨rfl, rfl, rfl, by simp [mkReservedField]; omega⟩
      · rw [if_neg hg] at h
        simp at h
    · exact fills_shape (b :: rest) y h

theorem fills_offset_nonneg :
    ∀ (l : List Field), (∀ f ∈ l, 0 ≤ f.offset ∧ 0 ≤ f.width) →
      ∀ y ∈ fieldGapFills l, 0 ≤ y.offset
  | [] => by simp [fieldGapFills]
  | [a] => by simp [fieldGapFills]
  | a :: b :: rest => by
    intro hb y hy
    rw [fieldGapFills] at hy
    rcases List.mem_append.mp hy with h | h
    · by_cases hg : b.offset - (a.offset + a.width) > 0
      · rw [if_pos hg] at h
        rw [List.mem_singleton.mp h]
        have := hb a (List.mem_cons_self a (b :: rest))
        show (0 : Int) ≤ a.offset + a.width
        omega
      · rw [if_neg hg] at h
        simp at h
    · exact fills_offset_nonneg (b :: rest)
        (fun f hf => hb f (List.mem_cons_of_mem a hf)) y h

theorem fills_end_le :
    ∀ (rest : List Field) (a : Field), chainOk (a :: rest) →
      (∀ f ∈ a :: rest, 0 ≤ f.width) →
      ∀ y ∈ fieldGapFills (a :: rest), y.offset + y.width ≤ lastEndF (a :: rest)
  | [], a, _, _ => by simp [fieldGapFills]
  | b :: r, a, hchain, hw => by
    intro y hy
    rw [fieldGapFills] at hy
    rw [lastEndF_cons_cons]
    have hb := chain_head_le_lastEnd r b hchain.2
      (fun f hf => hw f (List.mem_cons_of_mem a hf))
    rcases List.mem_append.mp hy with h | h
    · by_cases hg : b.offset - (a.offset + a.width) > 0
      · rw [if_pos hg] at h
        rw [List.mem_singleton.mp h]
        show a.offset + a.width + (b.offset - (a.offset + a.width)) ≤ _
        omega
      · rw [if_neg hg] at h
        simp at h
    · exact fills_end_le r b hchain.2
        (fun f hf => hw f (List.mem_cons_of_mem a hf)) y h

theorem scan_countP :
    ∀ (rest : List Field) (a : Field), chainOk (a :: rest) →
      (∀ f ∈ a :: rest, 0 ≤ f.width) → ∀ b : Int,
      (scanF (a :: rest)).countP (coversBit b) = ival a.offset (lastEndF (a :: rest)) b
  | [], a, _, _, b => by
    show ((a :: []) ++ fieldGapFills [a]).countP (coversBit b) = _
    rw [show fieldGapFills [a] = [] from rfl, List.append_nil, countP_covers_cons]
    rw [show lastEndF [a] = a.offset + a.width from rfl]
    simp [List.countP_nil]
  | b' :: r, a, hchain, hw, b => by
    have hwa := hw a (List.mem_cons_self a (b' :: r))
    have hab : a.offset + a.width ≤ b'.offset := hchain.1
    have hbE : b'.offset ≤ lastEndF (b' :: r) :=
      chain_head_le_lastEnd r b' hchain.2
        (fun f hf => hw f (List.mem_cons_of_mem a hf))
    have ih := scan_countP r b' hchain.2
      (fun f hf => hw f (List.mem_cons_of_mem a hf)) b
    rw [lastEndF_cons_cons]
    have hsplit :
        (scanF (a :: b' :: r)).countP (coversBit b)
          = ival a.offset (a.offset + a.width) b
            + ((if b'.offset - (a.offset + a.width) > 0 then
                  [mkReservedField (a.offset + a.width)
                    (b'.offset - (a.offset + a.width))]
                else []).countP (coversBit b)
              + (scanF (b' :: r)).countP (coversBit b)) := by
      show ((a :: b' :: r) ++ fieldGapFills (a :: b' :: r)).countP (coversBit b) = _
      rw [fieldGapFills]
      show (a :: ((b' :: r)
          ++ ((if b'.offset - (a.offset + a.width) > 0 then
                [mkReservedField (a.offset + a.width)
                  (b'.offset - (a.offset + a.width))]
              else []) ++ fieldGapFills (b' :: r)))).countP (coversBit b) = _
      rw [countP_covers_cons, List.countP_append]
      show (b' :: r).countP (coversBit b)
          + ((if b'.offset - (a.offset + a.width) > 0 then
                [mkReservedField (a.offset + a.width)
                  (b'.offset - (a.offset + a.width))]
              else []) ++ fieldGapFills (b' :: r)).countP (coversBit b)
          + ival a.offset (a.offset + a.width) b = _
      rw [List.countP_append]
      show (b' :: r).countP (coversBit b)
          + ((if b'.offset - (a.offset + a.width) > 0 then
                [mkReservedField (a.offset + a.width)
                  (b'.offset - (a.offset + a.width))]
              else []).countP (coversBit b)
            + (fieldGapFills (b' :: r)).countP (coversBit b)) + _ = _
      have hscan2 : (scanF (b' :: r)).countP (coversBit b)
          = (b' :: r).countP (coversBit b)
            + (fieldGapFills (b' :: r)).countP (coversBit b) := by
        show ((b' :: r) ++ fieldGapFills (b' :: r)).countP (coversBit b) = _
        rw [List.countP_append]
      omega
    have hgap :
        (if b'.offset - (a.offset + a.width) > 0 then
            [mkReservedField (a.offset + a.width)
              (b'.offset - (a.offset + a.width))]
          else []).countP (coversBit b)
          = ival (a.offset + a.width) b'.offset b := by
      by_cases hg : b'.offset - (a.offset + a.width) > 0
      · rw [if_pos hg, countP_covers_cons]
        have harg : a.offset + a.width + (b'.offset - (a.offset + a.width))
            = b'.offset := by ring
        simp only [List.countP_nil, mkReservedField]
        rw [harg]
        omega
      · rw [if_neg hg]
        have : a.offset + a.width = b'.offset := by omega
        rw [List.countP_nil]
        unfold ival
        split_ifs <;> omega
    have e1 : ival a.offset (a.offset + a.width) b
        + ival (a.offset + a.width) b'.offset b = ival a.offset b'.offset b :=
      ival_add _ _ _ b (by omega) hab
    have e2 : ival a.offset b'.offset b + ival b'.offset (lastEndF (b' :: r)) b
        = ival a.offset (lastEndF (b' :: r)) b :=
      ival_add _ _ _ b (by omega) hbE
    rw [hsplit, hgap, ih]
    omega

theorem sortF_perm (l : List Field) : (sortF l).Perm l :=
  List.perm_insertionSort fieldLe l

theorem sortF_sorted (l : List Field) : List.Pairwise fieldLe (sortF l) :=
  List.sorted_insertionSort fieldLe l

theorem fieldDisjoint_symm : Symmetric FieldDisjoint := fun _ _ h => h.symm

theorem pairwise_chainOk :
    ∀ (l : List Field), List.Pairwise fieldLe l → List.Pairwise FieldDisjoint l →
      (∀ f ∈ l, 1 ≤ f.width) → chainOk l
  | [] => by
    intro _ _ _
    trivial
  | [a] => by
    intro _ _ _
    trivial
  | a :: b :: r => by
    intro hs hd hw
    obtain ⟨hsa, hs2⟩ := List.pairwise_cons.mp hs
    obtain ⟨hda, hd2⟩ := List.pairwise_cons.mp hd
    refine ⟨?_, pairwise_chainOk (b :: r) hs2 hd2
      (fun f hf => hw f (List.mem_cons_of_mem a hf))⟩
    have h1 : a.offset ≤ b.offset := hsa b (List.mem_cons_self b r)
    have h2 : FieldDisjoint a b := hda b (List.mem_cons_self b r)
    have h3 : 1 ≤ b.width := hw b (List.mem_cons_of_mem a (List.mem_cons_self b r))
    rcases h2 with h | h
    · exact h
    · omega

theorem sorted_lastF_ge :
    ∀ (l : List Field), List.Pairwise fieldLe l → ∀ (z : Field), lastF l = some z →
      ∀ y ∈ l, y.offset ≤ z.offset
  | [] => by simp [lastF]
  | [a] => by
    intro _ z hz y hy
    rw [lastF] at hz
    rw [List.mem_singleton.mp hy, ← Option.some.inj hz]
  | a :: b :: r => by
    intro hs z hz y hy
    obtain ⟨hsa, hs2⟩ := List.pairwise_cons.mp hs
    rw [lastF_cons_cons] at hz
    rcases List.mem_cons.mp hy with h | h
    · rw [h]
      exact hsa z (lastF_mem (b :: r) z hz)
    · exact sorted_lastF_ge (b :: r) hs2 z hz y h

theorem countP_two (l : List Field) (p : Field → Bool) (x y : Field)
    (hx : x ∈ l) (hy : y ∈ l) (hxy : x ≠ y) (hpx : p x = true) (hpy : p y = true) :
    2 ≤ l.countP p := by
  obtain ⟨s, t, rfl⟩ := List.append_of_mem hx
  have hy2 : y ∈ s ∨ y ∈ t := by
    rcases List.mem_append.mp hy with h | h
    · exact .inl h
    · rcases List.mem_cons.mp h with h | h
      · exact absurd h.symm hxy
      · exact .inr h
  have hcnt : List.countP p (s ++ x :: t)
      = s.countP p + (t.countP p + 1) := by
    rw [List.countP_append, List.countP_cons, hpx]
    simp
  have hside : 1 ≤ s.countP p ∨ 1 ≤ t.countP p := by
    rcases hy2 with h | h
    · exact .inl (List.countP_pos_iff.mpr ⟨y, h, hpy⟩)
    · exact .inr (List.countP_pos_iff.mpr ⟨y, h, hpy⟩)
  omega

theorem lastEndF_pos (l : List Field) (hne : l ≠ [])
    (h : ∀ f ∈ l, 0 ≤ f.offset ∧ 1 ≤ f.width) : 1 ≤ lastEndF l := by
  obtain ⟨z, hz⟩ := lastF_isSome l hne
  have hzm := lastF_mem l z hz
  have := h z hzm
  unfold lastEndF
  rw [hz]
  show (1 : Int) ≤ z.offset + z.width
  omega

theorem withHead_spec (s0 : Field) (s' : List Field)
    (hchain : chainOk (s0 :: s'))
    (hw : ∀ f ∈ s0 :: s', 1 ≤ f.width)
    (hbounds : ∀ f ∈ s0 :: s', 0 ≤ f.offset ∧ f.offset + f.width ≤ 32) :
    ∃ a rest, withHeadF (s0 :: s') = a :: rest
      ∧ a.offset = 0
      ∧ chainOk (a :: rest)
      ∧ (∀ f ∈ a :: rest, 0 ≤ f.width)
      ∧ (∀ f ∈ a :: rest, 0 ≤ f.offset ∧ f.offset + f.width ≤ 32)
      ∧ (∀ f ∈ a :: rest, f ∈ s0 :: s' ∨ (f.name = "" ∧ f.readonly = true))
      ∧ (∀ f ∈ a :: rest, f.width = 0 →
          f.offset = 0 ∧ ∃ z ∈ a :: rest, 1 ≤ z.offset)
      ∧ 1 ≤ lastEndF (a :: rest) := by
  have hbig : ∀ f ∈ s0 :: s', 0 ≤ f.offset ∧ 1 ≤ f.width :=
    fun f hf => ⟨(hbounds f hf).1, hw f hf⟩
  by_cases h0 : s0.offset = 0
  · refine ⟨s0, s', ?_, h0, hchain, fun f hf => by have := hw f hf; omega,
      hbounds, fun f hf => .inl hf, ?_, lastEndF_pos _ (by simp) hbig⟩
    · show (if s0.offset ≠ 0 then mkReservedField 0 (s0.offset - 1) :: s0 :: s'
          else s0 :: s') = s0 :: s'
      rw [if_neg (not_not_intro h0)]
    · intro f hf hf0
      have := hw f hf
      omega
  · have hs0b := hbounds s0 (List.mem_cons_self s0 s')
    have hs0w := hw s0 (List.mem_cons_self s0 s')
    have hoff1 : 1 ≤ s0.offset := by omega
    refine ⟨mkReservedField 0 (s0.offset - 1), s0 :: s', ?_, rfl, ?_, ?_, ?_, ?_, ?_, ?_⟩
    · show (if s0.offset ≠ 0 then mkReservedField 0 (s0.offset - 1) :: s0 :: s'
          else s0 :: s') = mkReservedField 0 (s0.offset - 1) :: s0 :: s'
      rw [if_pos h0]
    · exact ⟨by show (0 : Int) + (s0.offset - 1) ≤ s0.offset; omega, hchain⟩
    · intro f hf
      rcases List.mem_cons.mp hf with h | h
      · rw [h]
        show (0 : Int) ≤ s0.offset - 1
        omega
      · have := hw f h
        omega
    · intro f hf
      rcases List.mem_cons.mp hf with h | h
      · rw [h]
        refine ⟨le_refl 0, ?_⟩
        show (0 : Int) + (s0.offset - 1) ≤ 32
        omega
      · exact hbounds f h
    · intro f hf
      rcases List.mem_cons.mp hf with h | h
      · exact .inr ⟨by rw [h]; rfl, by rw [h]; rfl⟩
      · exact .inl h
    · intro f hf hf0
      rcases List.mem_cons.mp hf with h | h
      · refine ⟨by rw [h]; rfl, s0,
          List.mem_cons_of_mem _ (List.mem_cons_self s0 s'), hoff1⟩
      · have := hw f h
        omega
    · rw [show lastEndF (mkReservedField 0 (s0.offset - 1) :: s0 :: s')
          = lastEndF (s0 :: s') from rfl]
      exact lastEndF_pos _ (by simp) hbig

theorem normalizeFields_eq (fields : List Field) (h : fields.length > 0)
    (L : Field) (hL : lastF (resortedF fields) = some L) :
    normalizeFields fields
      = (if L.offset + L.width ≠ 32
          then resortedF fields
            ++ [mkReservedField (L.offset + L.width) (32 - (L.offset + L.width))]
          else resortedF fields) := by
  unfold normalizeFields
  rw [if_pos h, hL]

/-- C2: for every register with at least one parsed field, assuming the
input fields satisfy the data-model invariants (pairwise disjoint bit
ranges, offset at least 0, width at least 1, offset + width at most 32),
the normalized field list covers the bit range [0, 32) with zero gaps and
zero overlaps: every bit of [0, 32) lies in exactly one field of the list;
and every field of the result that is not one of the input fields is a
synthesized reserved field with empty name and readonly = true. -/
theorem c2_field_layout_invariant (fields : List Field) (hne : fields ≠ [])
    (hdisj : List.Pairwise FieldDisjoint fields)
    (hinv : ∀ f ∈ fields, 0 ≤ f.offset ∧ 1 ≤ f.width ∧ f.offset + f.width ≤ 32) :
    (∀ b : Int, 0 ≤ b → b < 32 → (normalizeFields fields).countP (coversBit b) = 1)
    ∧ (∀ f ∈ normalizeFields fields,
        f ∈ fields ∨ (f.name = "" ∧ f.readonly = true)) := by
  have hperm : (sortF fields).Perm fields := sortF_perm fields
  have hsorted : List.Pairwise fieldLe (sortF fields) := sortF_sorted fields
  have hdisj2 : List.Pairwise FieldDisjoint (sortF fields) :=
    (hperm.pairwise_iff (fun hab => fieldDisjoint_symm hab)).mpr hdisj
  have hmem2 : ∀ f ∈ sortF fields, f ∈ fields := fun f hf => hperm.mem_iff.mp hf
  have hinv2 : ∀ f ∈ sortF fields,
      0 ≤ f.offset ∧ 1 ≤ f.width ∧ f.offset + f.width ≤ 32 :=
    fun f hf => hinv f (hmem2 f hf)
  have hchain0 : chainOk (sortF fields) :=
    pairwise_chainOk _ hsorted hdisj2 (fun f hf => (hinv2 f hf).2.1)
  obtain ⟨s0, s', hs⟩ : ∃ s0 s', sortF fields = s0 :: s' := by
    cases hsf : sortF fields with
    | nil =>
      exfalso
      have hlen0 := hperm.length_eq
      rw [hsf] at hlen0
      exact hne (List.length_eq_zero.mp hlen0.symm)
    | cons x l => exact ⟨x, l, rfl⟩
  rw [hs] at hchain0 hmem2 hinv2
  obtain ⟨a, rest, hWeq, haoff, hchainW, hwW, hboundsW, hprovW, hzeroW, hlastpos⟩ :=
    withHead_spec s0 s' hchain0 (fun f hf => (hinv2 f hf).2.1)
      (fun f hf => ⟨(hinv2 f hf).1, (hinv2 f hf).2.2⟩)
  have hRdef : resortedF fields = sortF (scanF (a :: rest)) := by
    unfold resortedF
    rw [hs, hWeq]
  have hcountScan : ∀ b : Int,
      (scanF (a :: rest)).countP (coversBit b)
        = ival 0 (lastEndF (a :: rest)) b := by
    intro b
    have h := scan_countP rest a hchainW hwW b
    rw [haoff] at h
    exact h
  have hboundsScan : ∀ y ∈ scanF (a :: rest),
      0 ≤ y.offset ∧ 0 ≤ y.width ∧ y.offset + y.width ≤ lastEndF (a :: rest) := by
    intro y hy
    rcases List.mem_append.mp hy with h | h
    · exact ⟨(hboundsW y h).1, hwW y h, chain_mem_end_le rest a hchainW hwW y h⟩
    · refine ⟨fills_offset_nonneg (a :: rest)
        (fun f hf => ⟨(hboundsW f hf).1, hwW f hf⟩) y h, ?_,
        fills_end_le rest a hchainW hwW y h⟩
      have := (fills_shape (a :: rest) y h).2.2.2
      omega
  have hEle32 : lastEndF (a :: rest) ≤ 32 := by
    obtain ⟨z, hz⟩ := lastF_isSome (a :: rest) (by simp)
    have hzb := (hboundsW z (lastF_mem _ z hz)).2
    unfold lastEndF
    rw [hz]
    exact hzb
  have hpermR : (resortedF fields).Perm (scanF (a :: rest)) := by
    rw [hRdef]
    exact sortF_perm _
  have hsortedR : List.Pairwise fieldLe (resortedF fields) := by
    rw [hRdef]
    exact sortF_sorted _
  have hcountR : ∀ b : Int,
      (resortedF fields).countP (coversBit b) = ival 0 (lastEndF (a :: rest)) b := by
    intro b
    rw [hpermR.countP_eq]
    exact hcountScan b
  have hRne : resortedF fields ≠ [] := by
    intro hnil
    have hlen2 := hpermR.length_eq
    rw [hnil] at hlen2
    simp [scanF] at hlen2
  obtain ⟨L, hL⟩ := lastF_isSome (resortedF fields) hRne
  have hLmemR : L ∈ resortedF fields := lastF_mem _ L hL
  have hLmem : L ∈ scanF (a :: rest) := hpermR.mem_iff.mp hLmemR
  have hLmax : ∀ y ∈ resortedF fields, y.offset ≤ L.offset :=
    sorted_lastF_ge _ hsortedR L hL
  have hLbounds := hboundsScan L hLmem
  have hLend : L.offset + L.width = lastEndF (a :: rest) := by
    by_cases hw1 : 1 ≤ L.width
    · by_contra hneq
      have hlt : L.offset + L.width < lastEndF (a :: rest) :=
        lt_of_le_of_ne hLbounds.2.2 hneq
      have hcnt1 : (resortedF fields).countP (coversBit (L.offset + L.width)) = 1 := by
        rw [hcountR]
        unfold ival
        rw [if_pos ⟨by omega, hlt⟩]
      have hpos : 0 < (resortedF fields).countP (coversBit (L.offset + L.width)) := by
        omega
      obtain ⟨z, hzR, hzcov⟩ := List.countP_pos_iff.mp hpos
      have hzcov2 := (coversBit_iff _ z).mp hzcov
      have hzne : z ≠ L := by
        intro heq
        rw [heq] at hzcov2
        omega
      have hzmax : z.offset ≤ L.offset := hLmax z hzR
      have hz2 : coversBit L.offset z = true := (coversBit_iff _ z).mpr (by omega)
      have hL2 : coversBit L.offset L = true := (coversBit_iff _ L).mpr (by omega)
      have h2le : 2 ≤ (resortedF fields).countP (coversBit L.offset) :=
        countP_two _ _ z L hzR hLmemR hzne hz2 hL2
      have h1eq : (resortedF fields).countP (coversBit L.offset) = 1 := by
        rw [hcountR]
        unfold ival
        rw [if_pos ⟨hLbounds.1, by omega⟩]
      omega
    · have hw0 : L.width = 0 := by
        have := hLbounds.2.1
        omega
      have hLW : L ∈ a :: rest := by
        rcases List.mem_append.mp hLmem with h | h
        · exact h
        · exfalso
          have := (fills_shape (a :: rest) L h).2.2.2
          omega
      obtain ⟨hoff0, z, hzW, hz1⟩ := hzeroW L hLW hw0
      have hzR : z ∈ resortedF fields :=
        hpermR.mem_iff.mpr (List.mem_append.mpr (.inl hzW))
      have := hLmax z hzR
      omega
  have hlen : fields.length > 0 := List.length_pos.mpr hne
  have hNF := normalizeFields_eq fields hlen L hL
  rw [hLend] at hNF
  have provR : ∀ y ∈ resortedF fields,
      y ∈ fields ∨ (y.name = "" ∧ y.readonly = true) := by
    intro y hy
    rcases List.mem_append.mp (hpermR.mem_iff.mp hy) with h | h
    · rcases hprovW y h with h2 | h2
      · exact .inl (hmem2 y h2)
      · exact .inr h2
    · have hsh := fills_shape (a :: rest) y h
      exact .inr ⟨hsh.1, hsh.2.2.1⟩
  constructor
  · intro b hb0 hb32
    rw [hNF]
    by_cases hE32 : lastEndF (a :: rest) ≠ 32
    · rw [if_pos hE32, List.countP_append, hcountR b]
      have htr : [mkReservedField (lastEndF (a :: rest))
          (32 - lastEndF (a :: rest))].countP (coversBit b)
            = ival (lastEndF (a :: rest)) 32 b := by
        rw [countP_covers_cons]
        show List.countP (coversBit b) []
            + ival (lastEndF (a :: rest)) (lastEndF (a :: rest)
              + (32 - lastEndF (a :: rest))) b = _
        rw [List.countP_nil]
        have h32 : lastEndF (a :: rest) + (32 - lastEndF (a :: rest)) = (32 : Int) := by
          ring
        rw [h32, Nat.zero_add]
      rw [htr, ival_add 0 (lastEndF (a :: rest)) 32 b (by omega) hEle32]
      unfold ival
      rw [if_pos ⟨hb0, hb32⟩]
    · rw [if_neg hE32, hcountR b]
      have hE32' : lastEndF (a :: rest) = 32 := not_not.mp hE32
      rw [hE32']
      unfold ival
      rw [if_pos ⟨hb0, hb32⟩]
  · intro f hf
    rw [hNF] at hf
    by_cases hE32 : lastEndF (a :: rest) ≠ 32
    · rw [if_pos hE32] at hf
      rcases List.mem_append.mp hf with h | h
      · exact provR f h
      · rw [List.mem_singleton.mp h]
        exact .inr ⟨rfl, rfl⟩
    · rw [if_neg hE32] at hf
      exact provR f hf

/-- C2 witness: the invariant instantiated at the single-field input
`EN` at offset 0, width 1 (the normalization then appends one reserved
field covering bits [1, 32)). -/
theorem c2_field_layout_invariant_witness :
    (∀ b : Int, 0 ≤ b → b < 32 →
      (normalizeFields [⟨"EN", "en", 0, 1, false⟩]).countP (coversBit b) = 1)
    ∧ (∀ f ∈ normalizeFields [⟨"EN", "en", 0, 1, false⟩],
        f ∈ [⟨"EN", "en", 0, 1, false⟩] ∨ (f.name = "" ∧ f.readonly = true)) :=
  c2_field_layout_invariant [⟨"EN", "en", 0, 1, false⟩] (by simp)
    (List.pairwise_singleton _ _)
    (by
      intro f hf
      rw [List.mem_singleton.mp hf]
      refine ⟨by decide, by decide, by decide⟩)

/-! ### Missing registers element -/

/-- C10: a non-derived peripheral element with no `registers` child makes
`load_peripheral` pass `None` to `load_registers`, whose for-loop raises
TypeError; the peripheral loop of `main` does not catch it, so the whole run
terminates even when earlier peripherals processed fine. -/
theorem c10_none_registers_typeerror :
    loadRegisters "BAD" none = Except.error PyErr.typeError
    ∧ loadPeripheral noRegsPeriph = Except.error PyErr.typeError
    ∧ processPeripherals [goodPeriph, noRegsPeriph] = Except.error PyErr.typeError := by
  decide

end Svd
